import Mathlib

/-!
Verification development for the conventional-commit release engine
(commit parser, commit classifier, version calculator, document renderer).

JavaScript strings are embedded as `List Char` (named `Str`); JS objects
with string keys are embedded as insertion-ordered association lists.
Every definition mirrors one function of the TypeScript source; the two
observed classifier variants are embedded separately:
  * `analyzeCommitsRL` / `parseCommitRL` — the `release-lib.ts` variant
    (also present verbatim in an earlier `utils/commit-parser.ts`);
  * `analyzeCommitsB` / `parseCommitB` — the current
    `utils/commit-parser.ts` variant that additionally returns
    `commitMeta` and takes the configuration as a parameter.
-/

namespace Release

/-- Strings of the embedded JavaScript semantics: plain lists of characters. -/
abbrev Str := List Char

/-- Characters removed by JS `String.prototype.trim` (WhiteSpace and
LineTerminator; the rare Unicode space separators beyond NBSP are omitted,
they occur in no commit message of the claims). -/
def isJsWs (c : Char) : Bool :=
  c = ' ' || c = '\t' || c = '\n' || c = '\r' || c = '\x0b' || c = '\x0c' ||
  c = '\u00A0' || c = '\uFEFF' || c = '\u2028' || c = '\u2029'

/-- Line terminators, the characters a JS regex `.` does not match. -/
def isLineTerm (c : Char) : Bool :=
  c = '\n' || c = '\r' || c = '\u2028' || c = '\u2029'

/-- JS `s.trim()`. -/
def jsTrim (s : Str) : Str :=
  ((s.dropWhile isJsWs).reverse.dropWhile isJsWs).reverse

/-- JS `s.split(sep)` for a one-character separator: always returns at
least one piece, empty pieces included. -/
def splitOnChar (sep : Char) : Str → List Str
  | [] => [[]]
  | c :: rest =>
    match splitOnChar sep rest with
    | [] => [[]]
    | p :: ps => if c = sep then [] :: p :: ps else (c :: p) :: ps

/-- JS `parts.join(sep)` for a one-character separator. -/
def joinWith (sep : Char) : List Str → Str
  | [] => []
  | [x] => x
  | x :: y :: xs => x ++ sep :: joinWith sep (y :: xs)

/-- Value of a nonempty decimal digit string, most significant digit first. -/
def digitsToNat (l : Str) : Nat :=
  l.foldl (fun a c => 10 * a + (c.toNat - ('0').toNat)) 0

/-- Decimal digit run of a nonempty all-digit string, `none` otherwise. -/
def jsDigits (l : Str) : Option Nat :=
  if l ≠ [] ∧ l.all Char.isDigit then some (digitsToNat l) else none

/-- JS `Number(string)` coercion, on the fragment that version strings can
produce: the input is whitespace-trimmed, the empty string coerces to `0`,
an optional sign followed by decimal digits is read as an integer, and
everything else is NaN (`none`). The exotic numeric forms JS would also
accept (hex / octal / binary literals, exponents, `Infinity`) cannot appear
in any input the claims range over and are mapped to `none`. -/
def jsNumber (s : Str) : Option Int :=
  let t := jsTrim s
  if t = [] then some 0
  else
    match t with
    | '-' :: r => (jsDigits r).map (fun n => -(n : Int))
    | '+' :: r => (jsDigits r).map (fun n => (n : Int))
    | r => (jsDigits r).map (fun n => (n : Int))

/-- Decimal digits of `n`, most significant first (`fuel`-structured so the
kernel can evaluate it; `fuel ≥ n + 1` always suffices). -/
def natReprAux : Nat → Nat → Str
  | 0, _ => []
  | fuel + 1, n =>
    if n = 0 then [] else natReprAux fuel (n / 10) ++ [Char.ofNat (('0').toNat + n % 10)]

/-- Decimal rendering of a natural number, as JS renders integer Numbers. -/
def natRepr (n : Nat) : Str :=
  if n = 0 then ['0'] else natReprAux (n + 1) n

/-- Decimal rendering of an integer, as JS template literals render
integer-valued Numbers (safe-integer range; the claims stay far below it). -/
def intRepr (i : Int) : Str :=
  if i < 0 then '-' :: natRepr i.natAbs else natRepr i.toNat

/-- Severity levels of a version bump, the TS union `"major"|"minor"|"patch"`. -/
inductive Bump
  | patch
  | minor
  | major
deriving DecidableEq, Repr

/-- Tail of `prereleaseMatch`: given the text after a candidate `-`, match
`(.+)\.(\d+)$` — a nonempty group, a dot, then a nonempty all-digit run
ending the string. Greediness makes the dot the one right before the
maximal trailing digit run. -/
def prereleaseTail (t : Str) : Option (Str × Str) :=
  let digs := t.reverse.takeWhile Char.isDigit
  let rest := t.reverse.dropWhile Char.isDigit
  if digs = [] then none
  else
    match rest with
    | '.' :: pre => if pre = [] then none else some (pre.reverse, digs.reverse)
    | _ => none

/-- JS `currentVersion.match` with pattern `-(.+)\.(\d+)$`: the leftmost `-` whose tail
completes the pattern wins; returns the two capture groups. -/
def prereleaseMatch : Str → Option (Str × Str)
  | [] => none
  | c :: rest =>
    if c = '-' then
      match prereleaseTail rest with
      | some g => some g
      | none => prereleaseMatch rest
    else prereleaseMatch rest

/-- Regular (non-prerelease) version bump: the three `switch` arms of
`bumpVersion`, printing from the parsed numeric components. -/
def bumpPlain : Bump → Int → Int → Int → Str
  | .major, ma, _, _ => intRepr (ma + 1) ++ ('.' :: '0' :: '.' :: '0' :: [])
  | .minor, ma, mi, _ => intRepr ma ++ '.' :: intRepr (mi + 1) ++ ('.' :: '0' :: [])
  | .patch, ma, mi, pa => intRepr ma ++ '.' :: intRepr mi ++ '.' :: intRepr (pa + 1)

/-- Fresh prerelease: the `switch` under `// New prerelease`, appending
`-<tag>.0` to a regular bump of the numeric core. -/
def bumpPre (bump : Bump) (tag : Str) (ma mi pa : Int) : Str :=
  bumpPlain bump ma mi pa ++ '-' :: tag ++ ('.' :: '0' :: [])

/-- Body of `bumpVersion` once the three components parsed: the prerelease
handling (tag truthiness, re-increment on a matching `-tag.N` suffix,
otherwise a fresh prerelease) and the regular bump. -/
def bumpCore (cur : Str) (bump : Bump) (prerelease : Option Str) (ma mi pa : Int) : Str :=
  match prerelease with
  | some tag =>
    if tag = [] then bumpPlain bump ma mi pa
    else
      match prereleaseMatch cur with
      | some (g1, g2) =>
        if g1 = tag then
          intRepr ma ++ '.' :: intRepr mi ++ '.' :: intRepr pa ++
            '-' :: tag ++ '.' :: natRepr (digitsToNat g2 + 1)
        else bumpPre bump tag ma mi pa
      | none => bumpPre bump tag ma mi pa
  | none => bumpPlain bump ma mi pa

/-- The `bumpVersion` of `release-lib.ts` and `utils/version.ts` (the two
copies are identical): split on dots, coerce each part with `Number`, throw
`Invalid version format` unless exactly three non-NaN parts result, then
apply the prerelease / regular bump logic. -/
def bumpVersionE (currentVersion : Str) (bump : Bump) (prerelease : Option Str) :
    Except Str Str :=
  match (splitOnChar '.' currentVersion).map jsNumber with
  | [some ma, some mi, some pa] => .ok (bumpCore currentVersion bump prerelease ma mi pa)
  | _ => .error (("Invalid version format: ").toList ++ currentVersion)

/-! JS objects with string keys, as insertion-ordered association lists. -/

/-- Insertion-ordered string-keyed record, the embedding of a JS object. -/
abbrev Rec (α : Type) := List (Str × α)

/-- JS property read `r[k]`: `none` embeds `undefined`. -/
def recGet {α : Type} (r : Rec α) (k : Str) : Option α :=
  (r.find? (fun p => p.1 == k)).map (fun p => p.2)

/-- JS property write `r[k] = v`: updates in place when the key exists,
appends otherwise (JS objects keep first-insertion order for string keys;
keys are unique, so replacing the first occurrence is the JS behaviour). -/
def recSet {α : Type} (r : Rec α) (k : Str) (v : α) : Rec α :=
  match r with
  | [] => [(k, v)]
  | p :: rs => if p.1 == k then (p.1, v) :: rs else p :: recSet rs k v

/-- The idiom `r[k] = r[k] || []; r[k].push(v)`. -/
def recPush (r : Rec (List Str)) (k : Str) (v : Str) : Rec (List Str) :=
  match recGet r k with
  | some l => recSet r k (l ++ [v])
  | none => r ++ [(k, [v])]

/-! String predicates used by the parser and classifier. -/

/-- JS regex `\w`: ASCII letters, digits and underscore. -/
def isWordChar (c : Char) : Bool := c.isAlphanum || c = '_'

/-- Does `s` start with `pat` (JS regex `^pat` for a literal pattern)? -/
def strStarts (s pat : Str) : Bool :=
  match s, pat with
  | _, [] => true
  | [], _ :: _ => false
  | c :: s1, p :: ps => c == p && strStarts s1 ps

/-- JS `s.includes(pat)`: contiguous-substring test. -/
def strIncludes (s pat : Str) : Bool :=
  match s with
  | [] => strStarts [] pat
  | c :: rest => strStarts (c :: rest) pat || strIncludes rest pat

/-- JS `s.toUpperCase()` on the ASCII range (all keyword tests are ASCII). -/
def strUpper (s : Str) : Str := s.map Char.toUpper

/-- JS `s.toLowerCase()` on the ASCII range. -/
def strLower (s : Str) : Str := s.map Char.toLower

/-! Shared configuration. -/

/-- One entry of `CONFIG.types` (TS `CommitTypeConfig`); `sectionName`
stands for the TS field `section`, a Lean keyword. Absent fields embed as
`none` / `false`, matching JS `undefined` falsiness. -/
structure CommitTypeConfig where
  bump : Bump
  sectionName : Option Str := none
  hidden : Bool := false
deriving DecidableEq, Repr

/-- The configuration fields the parser and classifier consume (TS `Config`;
the branch and markdown fields are consumed by other components and carried
separately where needed). -/
structure Config where
  types : Rec CommitTypeConfig
  hiddenScopes : Rec (List Str)
  breakingKeywords : List Str

/-- The shared `CONFIG` object: `release-lib.ts` and `config.ts` declare
identical `types`, `hiddenScopes` and `breakingKeywords`. -/
def CONFIG : Config where
  types :=
    [(("feat").toList, { bump := .minor, sectionName := some (("Features").toList) }),
     (("fix").toList, { bump := .patch, sectionName := some (("Bug Fixes").toList) }),
     (("docs").toList, { bump := .patch, sectionName := some (("Documentation").toList) }),
     (("style").toList, { bump := .patch, sectionName := some (("Styles").toList) }),
     (("refactor").toList, { bump := .patch, sectionName := some (("Refactors").toList) }),
     (("perf").toList, { bump := .patch, sectionName := some (("Performance Improvements").toList) }),
     (("test").toList, { bump := .patch, sectionName := some (("Tests").toList) }),
     (("chore").toList, { bump := .patch, sectionName := some (("Chores").toList) }),
     (("bump").toList, { bump := .patch, hidden := true }),
     (("dependabot").toList, { bump := .patch, hidden := true }),
     (("revert").toList, { bump := .patch, hidden := true })]
  hiddenScopes := [(("chore").toList, [("npm-dep").toList])]
  breakingKeywords :=
    [("BREAKING CHANGE").toList, ("BREAKING-CHANGE").toList,
     ("BREAKING CHANGES").toList, ("BREAKING-CHANGES").toList]

/-! Conventional-commit subject matching. -/

/-- Strip a trailing PR back-reference: JS `replace` with pattern
`\s*\(#\d+\)$`, used on the description (`release-lib.ts`) and on the whole
message (`utils/commit-parser.ts`). -/
def stripPrSuffix (d : Str) : Str :=
  match d.reverse with
  | ')' :: r =>
    let digs := r.takeWhile Char.isDigit
    let r2 := r.dropWhile Char.isDigit
    if digs.isEmpty then d
    else
      match r2 with
      | '#' :: '(' :: r3 => (r3.dropWhile isJsWs).reverse
      | _ => d
  | _ => d

/-- JS `message.match` with pattern `\(#(\d+)\)$`: the digit group of a
trailing PR back-reference. -/
def extractPr (message : Str) : Option Str :=
  match message.reverse with
  | ')' :: r =>
    let digs := r.takeWhile Char.isDigit
    let r2 := r.dropWhile Char.isDigit
    if digs.isEmpty then none
    else
      match r2 with
      | '#' :: '(' :: _ => some digs.reverse
      | _ => none
  | _ => none

/-- Tail of the `release-lib.ts` subject regex after type and scope:
`(!)?: (.+)` — optional bang, literal colon-space, then a nonempty run of
non-line-terminator characters (`.` matches no line terminator; the pattern
is unanchored on the right). Backtracking never helps: a skipped bang still
faces a non-colon character. -/
def matchTailRL (rest : Str) : Option (Bool × Str) :=
  let (bang, r) :=
    match rest with
    | '!' :: r1 => (true, r1)
    | r1 => (false, r1)
  match r with
  | ':' :: ' ' :: r2 =>
    let d := r2.takeWhile (fun c => !(isLineTerm c))
    if d.isEmpty then none else some (bang, d)
  | _ => none

/-- Successful match of the `release-lib.ts` subject regex
`^(\w+)(?:\(([^)]+)\))?(!)?: (.+)`. -/
structure SubjectMatchRL where
  mtype : Str
  mscope : Option Str
  bang : Bool
  mdesc : Str

/-- The `release-lib.ts` subject regex. The match is deterministic: `\w+`
cannot usefully backtrack (a shorter type prefix leaves a word character
where `(`, `!` or `:` is required), the scope group stops at the first `)`,
and a scope-opening `(` that fails the group fails the whole match. -/
def matchSubjectRL (subject : Str) : Option SubjectMatchRL :=
  let ty := subject.takeWhile isWordChar
  let rest := subject.dropWhile isWordChar
  if ty.isEmpty then none
  else
    match rest with
    | '(' :: r2 =>
      let inner := r2.takeWhile (fun c => c != ')')
      let r3 := r2.dropWhile (fun c => c != ')')
      match r3 with
      | ')' :: r4 =>
        if inner.isEmpty then none
        else (matchTailRL r4).map (fun bd => ⟨ty, some inner, bd.1, bd.2⟩)
      | _ => none
    | _ => (matchTailRL rest).map (fun bd => ⟨ty, none, bd.1, bd.2⟩)

/-- Result of `parseCommit` in `release-lib.ts`. -/
structure ParsedCommitRL where
  type : Str
  scope : Option Str
  description : Str
  breaking : Bool
  body : Str
deriving DecidableEq, Repr

/-- The `parseCommit` of `release-lib.ts`: trim, split the first line off as
subject, match the conventional grammar, raise `breaking` on the bang or on
a case-insensitive breaking keyword in the body, and strip a trailing PR
reference from the description. -/
def parseCommitRL (commit : Str) : Option ParsedCommitRL :=
  match splitOnChar '\n' (jsTrim commit) with
  | [] => none
  | subject :: restLines =>
    if subject.isEmpty then none
    else
      let body := jsTrim (joinWith '\n' restLines)
      match matchSubjectRL subject with
      | none => none
      | some m =>
        if m.mtype.isEmpty || m.mdesc.isEmpty then none
        else
          let breaking := m.bang ||
            CONFIG.breakingKeywords.any
              (fun kw => strIncludes (strUpper body) (strUpper kw))
          some ⟨m.mtype, m.mscope, stripPrSuffix m.mdesc, breaking, body⟩

/-- JS regex `^\d+\.\d+\.\d+`: a bare leading version number. -/
def startsWithVerNum (s : Str) : Bool :=
  let d1 := s.takeWhile Char.isDigit
  let r1 := s.dropWhile Char.isDigit
  if d1.isEmpty then false
  else
    match r1 with
    | '.' :: r2 =>
      let d2 := r2.takeWhile Char.isDigit
      let r3 := r2.dropWhile Char.isDigit
      if d2.isEmpty then false
      else
        match r3 with
        | '.' :: r4 => !(r4.takeWhile Char.isDigit).isEmpty
        | _ => false
    | _ => false

/-- The `isReleaseCommit` helper (identical in `release-lib.ts` and
`utils/commit-parser.ts`): a `[skip ci]` / `[ci skip]` marker anywhere in
the subject (case-insensitive), or one of the reserved release-commit
subject shapes. -/
def isReleaseCommit (commit : Str) : Bool :=
  match splitOnChar '\n' (jsTrim commit) with
  | [] => false
  | subject :: _ =>
    if subject.isEmpty then false
    else
      strIncludes (strLower subject) (("[skip ci]").toList) ||
      strIncludes (strLower subject) (("[ci skip]").toList) ||
      strStarts subject (("chore(release):").toList) ||
      strStarts subject (("release:").toList) ||
      strStarts (strLower subject) (("bump version").toList) ||
      strStarts (strLower subject) (("version bump").toList) ||
      startsWithVerNum subject

/-! The `release-lib.ts` classifier. -/

/-- Result record of `analyzeCommits` (TS `CommitAnalysisResult`). -/
structure CommitAnalysisResult where
  bump : Bump
  changes : Rec (List Str)
  hasOnlyHiddenChanges : Bool
deriving DecidableEq, Repr

/-- Consume one char case-insensitively matching each char of `pat`. -/
def dropCaseless : Str → Str → Option Str
  | s, [] => some s
  | [], _ :: _ => none
  | c :: s, p :: ps => if c.toUpper = p.toUpper then dropCaseless s ps else none

/-- Match the detail-cleanup regex `BREAKING[\s-]CHANGE[S]?:?\s*`
(case-insensitive) at the head of `l`, returning the remainder. -/
def matchBreakingKw (l : Str) : Option Str :=
  match dropCaseless l (("BREAKING").toList) with
  | none => none
  | some r1 =>
    match r1 with
    | c :: r2 =>
      if isJsWs c || c = '-' then
        match dropCaseless r2 (("CHANGE").toList) with
        | none => none
        | some r3 =>
          let r4 :=
            match r3 with
            | 's' :: t => t
            | 'S' :: t => t
            | t => t
          let r5 :=
            match r4 with
            | ':' :: t => t
            | t => t
          some (r5.dropWhile isJsWs)
      else none
    | [] => none

/-- JS `replace` of the first occurrence of the detail-cleanup pattern. -/
def replaceBreakingKwFirst : Str → Str
  | [] => []
  | c :: rest =>
    match matchBreakingKw (c :: rest) with
    | some rem => rem
    | none => c :: replaceBreakingKwFirst rest

/-- The line of the body carrying a breaking keyword: split on newlines,
drop blank lines, find the first line containing a keyword
(case-insensitive). -/
def breakingDetailLine (body : Str) : Option Str :=
  ((splitOnChar '\n' body).filter (fun line => !(jsTrim line).isEmpty)).find?
    (fun line =>
      CONFIG.breakingKeywords.any (fun kw => strIncludes (strUpper line) (strUpper kw)))

/-- Is the commit hidden by a hidden-scope rule (`release-lib.ts` reading:
the JS chain `hiddenScopes && parsed.scope && hiddenScopes.includes(...)`)? -/
def scopeHiddenRL (ptype : Str) (scope : Option Str) : Bool :=
  match recGet CONFIG.hiddenScopes ptype with
  | none => false
  | some scopes =>
    match scope with
    | some s => !s.isEmpty && scopes.any (fun x => x == s)
    | none => false

/-- Loop state of the `release-lib.ts` `analyzeCommits`: the running
nullable bump, the changes object and the hidden-change flag. -/
structure RLState where
  bump : Option Bump
  changes : Rec (List Str)
  hasHiddenChanges : Bool
deriving DecidableEq, Repr

/-- Breaking-change block of the `release-lib.ts` loop: on a breaking
commit, force the bump to `major`, push the description onto the reserved
"Breaking Changes" section, and, when a breaking keyword appears in the
body, push an extra `Details:` entry derived from that body line. -/
def rlBreaking (st : RLState) (parsed : ParsedCommitRL) : RLState :=
  if parsed.breaking then
    let ch := recPush st.changes (("Breaking Changes").toList) parsed.description
    let ch :=
      if !parsed.body.isEmpty &&
          CONFIG.breakingKeywords.any
            (fun kw => strIncludes (strUpper parsed.body) (strUpper kw)) then
        match breakingDetailLine parsed.body with
        | some line =>
          let detail := jsTrim (replaceBreakingKwFirst line)
          if detail.isEmpty then ch
          else recPush ch (("Breaking Changes").toList) ((("Details: ").toList) ++ detail)
        | none => ch
      else ch
    { st with bump := some .major, changes := ch }
  else st

/-- Regular-type block of the `release-lib.ts` loop: look the type up in
`CONFIG.types`; on a match update the running bump (a null bump takes any
declared bump, a running `patch` takes an arriving `minor`), then either
push the description onto the rule's section (visible with a truthy
section) or record that a hidden change occurred. -/
def rlRule (st1 : RLState) (parsed : ParsedCommitRL) : RLState :=
  match recGet CONFIG.types parsed.type with
  | none => st1
  | some config =>
    let newBump :=
      if st1.bump.isNone || (st1.bump == some .patch && config.bump == .minor) then
        some config.bump
      else st1.bump
    let isHidden := config.hidden || scopeHiddenRL parsed.type parsed.scope
    let visibleSection : Option Str :=
      if isHidden then none
      else
        match config.sectionName with
        | some sec => if sec.isEmpty then none else some sec
        | none => none
    match visibleSection with
    | some sec =>
      { st1 with bump := newBump, changes := recPush st1.changes sec parsed.description }
    | none =>
      { st1 with bump := newBump, hasHiddenChanges := true }

/-- One iteration of the `release-lib.ts` `analyzeCommits` loop: skip
release commits, skip unparseable commits, then run the breaking block
followed by the regular-type block. -/
def rlStep (st : RLState) (commit : Str) : RLState :=
  if isReleaseCommit commit then st
  else
    match parseCommitRL commit with
    | none => st
    | some parsed => rlRule (rlBreaking st parsed) parsed

/-- The `analyzeCommits` of `release-lib.ts` (also the earlier
`utils/commit-parser.ts` variant, which is identical): fold the loop over
the commit list, default the bump to `patch`, and report
`hasOnlyHiddenChanges` when the changes object stayed empty while a hidden
change occurred. -/
def analyzeCommitsRL (commits : List Str) : CommitAnalysisResult :=
  let st := commits.foldl rlStep ⟨none, [], false⟩
  { bump := st.bump.getD .patch
    changes := st.changes
    hasOnlyHiddenChanges := st.changes.isEmpty && st.hasHiddenChanges }

/-! The current `utils/commit-parser.ts` variant ("B"): hash-aware input,
parameterised configuration, and a `commitMeta` result. -/

/-- Input record of the current pipeline (TS `CommitInfo` of `utils/git.ts`). -/
structure CommitInfo where
  hash : Str
  message : Str
deriving DecidableEq, Repr

/-- Result of `parseCommit` in `utils/commit-parser.ts`. -/
structure ParsedCommitB where
  type : Str
  scope : Option Str
  description : Str
  breaking : Bool
  body : Str
  hash : Option Str
  prNumber : Option Str
deriving DecidableEq, Repr

/-- Tail of the `utils/commit-parser.ts` regex after type and scope:
`: (.+)$` — literal colon-space, then the remainder, which the right anchor
and the line-terminator-free `.` force to be nonempty and single-line. -/
def matchTailB (r : Str) : Option Str :=
  match r with
  | ':' :: ' ' :: r2 => if r2.isEmpty || r2.any isLineTerm then none else some r2
  | _ => none

/-- The `utils/commit-parser.ts` regex `^(\w+)(?:\(([^)]+)\))?: (.+)$`,
applied to the whole (PR-stripped) message; no bang group. Determinism as
for `matchSubjectRL`. -/
def matchWholeB (s : Str) : Option (Str × Option Str × Str) :=
  let ty := s.takeWhile isWordChar
  let rest := s.dropWhile isWordChar
  if ty.isEmpty then none
  else
    match rest with
    | '(' :: r2 =>
      let inner := r2.takeWhile (fun c => c != ')')
      let r3 := r2.dropWhile (fun c => c != ')')
      match r3 with
      | ')' :: r4 =>
        if inner.isEmpty then none
        else (matchTailB r4).map (fun d => (ty, some inner, d))
      | _ => none
    | _ => (matchTailB rest).map (fun d => (ty, none, d))

/-- The `parseCommit` of `utils/commit-parser.ts`: extract a trailing PR
number, strip it, match the whole message against the grammar; an
unmatched message yields type `"unknown"` with the clean message as
description. `breaking` starts `false` (keywords are applied later by the
classifier) and `body` stays empty. -/
def parseCommitB (message : Str) (hash : Option Str) : ParsedCommitB :=
  let pr := extractPr message
  let cleanMessage := if pr.isSome then stripPrSuffix message else message
  match matchWholeB cleanMessage with
  | none =>
    { type := ("unknown").toList, scope := none, description := cleanMessage
      breaking := false, body := [], hash := hash, prNumber := pr }
  | some (ty, sc, d) =>
    { type := if ty.isEmpty then ("unknown").toList else ty
      scope := sc
      description := d
      breaking := false, body := [], hash := hash, prNumber := pr }

/-- Result of the current `analyzeCommits`: `CommitAnalysisResult`
extended with the `commitMeta` linking map. -/
structure AnalysisB where
  bump : Bump
  changes : Rec (List Str)
  hasOnlyHiddenChanges : Bool
  commitMeta : Rec (Option Str × Option Str)
deriving DecidableEq, Repr

/-- Loop state of the current `analyzeCommits`. -/
structure BState where
  bump : Bump
  changes : Rec (List Str)
  commitMeta : Rec (Option Str × Option Str)
  hasVisibleChanges : Bool
deriving DecidableEq, Repr

/-- Hidden-scope test of the current variant (same JS chain as
`scopeHiddenRL`, against the passed-in configuration). -/
def scopeHiddenB (config : Config) (ptype : Str) (scope : Option Str) : Bool :=
  match recGet config.hiddenScopes ptype with
  | none => false
  | some scopes =>
    match scope with
    | some s => !s.isEmpty && scopes.any (fun x => x == s)
    | none => false

/-- The `changeDescription` expression of the current `analyzeCommits`:
the description, suffixed with ` (scope)` when the scope is truthy. -/
def changeDescB (p : ParsedCommitB) : Str :=
  match p.scope with
  | some sc =>
    if sc.isEmpty then p.description
    else p.description ++ (" (").toList ++ sc ++ [')']
  | none => p.description

/-- One iteration of the current `analyzeCommits` loop: keyword-only
breaking detection on the raw message, bump update (only an arriving
`minor` can raise a non-`major` bump), hidden-type and hidden-scope skips,
then the section push (breaking commits go to "Breaking Changes" instead
of their type section) and the `commitMeta` write keyed by the rendered
description (scope-suffixed when a scope is present). -/
def bStep (config : Config) (breakingKeywords : List Str) (st : BState) (ci : CommitInfo) :
    BState :=
  let parsed := parseCommitB ci.message (some ci.hash)
  let isBreaking := breakingKeywords.any (fun kw => strIncludes ci.message kw)
  let bump1 := if isBreaking then Bump.major else st.bump
  match recGet config.types parsed.type with
  | none => { st with bump := bump1 }
  | some typeConfig =>
    let bump2 :=
      if typeConfig.bump == Bump.minor && bump1 != Bump.major then Bump.minor else bump1
    if typeConfig.hidden then { st with bump := bump2 }
    else if scopeHiddenB config parsed.type parsed.scope then { st with bump := bump2 }
    else
      let sectionName :=
        if isBreaking then ("Breaking Changes").toList
        else
          match typeConfig.sectionName with
          | some sec => if sec.isEmpty then parsed.type else sec
          | none => parsed.type
      let changeDescription := changeDescB parsed
      { bump := bump2
        changes := recPush st.changes sectionName changeDescription
        commitMeta := recSet st.commitMeta changeDescription (parsed.hash, parsed.prNumber)
        hasVisibleChanges := true }

/-- The `analyzeCommits` of the current `utils/commit-parser.ts`: fold the
loop from bump `patch`, and report `hasOnlyHiddenChanges` as the absence of
any visible change. -/
def analyzeCommitsB (commits : List CommitInfo) (config : Config)
    (breakingKeywords : List Str) : AnalysisB :=
  let st := commits.foldl (bStep config breakingKeywords) ⟨.patch, [], [], false⟩
  { bump := st.bump
    changes := st.changes
    hasOnlyHiddenChanges := !st.hasVisibleChanges
    commitMeta := st.commitMeta }

/-! The document renderer of `utils/formatting.ts`. -/

/-- Repository identity passed to the renderer. -/
structure RepoInfo where
  owner : Str
  repo : Str

/-- Templates of one changelog rendering (TS `markdownConfig.changelog`). -/
structure ChangelogTemplates where
  versionHeader : Str
  sectionHeader : Str
  listItem : Str
  dateFormat : Str

/-- Templates of the release-notes rendering. -/
structure NotesTemplates where
  sectionHeader : Str
  listItem : Str

/-- The optional `markdownConfig` argument. -/
structure MarkdownConfig where
  changelog : Option ChangelogTemplates := none
  releaseNotes : Option NotesTemplates := none
  sections : Option (Rec Str) := none

/-- JS `s.replace(pat, rep)` for a literal string pattern: first
occurrence only. The `$`-escape forms of the replacement string are not
modelled (no replacement of the claims contains `$`). -/
def jsReplaceFirst (pat rep s : Str) : Str :=
  match s with
  | [] => if pat.isEmpty then rep else []
  | c :: rest =>
    if strStarts (c :: rest) pat then rep ++ (c :: rest).drop pat.length
    else c :: jsReplaceFirst pat rep rest

/-- The `formatDate` helper: both the `"YYYY-MM-DD"` branch and the default
branch return the date part of the ISO timestamp, so the embedding takes
that date part (`today`) as an explicit parameter in place of the ambient
clock. -/
def formatDate (today : Str) (_format : Str) : Str := today

/-- The `getSectionDisplayName` helper: rename a section through the
optional `sections` table, falling back to the original name (a missing or
falsy entry keeps the original). -/
def getSectionDisplayName (sectionName : Str) (sections : Option (Rec Str)) : Str :=
  match sections with
  | none => sectionName
  | some tbl =>
    match recGet tbl sectionName with
    | some s => if s.isEmpty then sectionName else s
    | none => sectionName

/-- JS `parts.join(sep)` for a string separator. -/
def joinStr (sep : Str) : List Str → Str
  | [] => []
  | [x] => x
  | x :: y :: xs => x ++ sep ++ joinStr sep (y :: xs)

/-- The `createLinks` helper: append a PR link when `prNumber` is truthy,
else a short-hash commit link when `hash` is truthy; with no metadata entry
or no repository info the item is returned unchanged. -/
def createLinks (item : Str) (commitMeta : Option (Option Str × Option Str))
    (repoInfo : Option RepoInfo) : Str :=
  match commitMeta, repoInfo with
  | some meta, some repo =>
    let prLinks : List Str :=
      match meta.2 with
      | some pr =>
        if pr.isEmpty then []
        else
          [('[' :: '#' :: pr) ++ (("](https://github.com/").toList) ++ repo.owner ++
            '/' :: repo.repo ++ (("/pull/").toList) ++ pr ++ [')']]
      | none => []
    let hashLinks : List Str :=
      match meta.1 with
      | some h =>
        if h.isEmpty || !prLinks.isEmpty then []
        else
          [('[' :: h.take 7) ++ (("](https://github.com/").toList) ++ repo.owner ++
            '/' :: repo.repo ++ (("/commit/").toList) ++ h ++ [')']]
      | none => []
    let links := prLinks ++ hashLinks
    if links.isEmpty then item
    else item ++ (" (").toList ++ joinStr ((", ").toList) links ++ [')']
  | _, _ => item

/-- The item loop shared by both formatters: each item is linked through
`createLinks` with its `commitMeta` entry, substituted into the list-item
template and terminated by a newline. -/
def renderItems (listItem : Str) (items : List Str)
    (commitMeta : Option (Rec (Option Str × Option Str)))
    (repoInfo : Option RepoInfo) : Str :=
  items.foldl
    (fun acc item =>
      let itemWithLinks := createLinks item (commitMeta.bind (fun m => recGet m item)) repoInfo
      acc ++ jsReplaceFirst (("{item}").toList) itemWithLinks listItem ++ ['\n'])
    []

/-- The section loop shared by both formatters. -/
def renderSections (sectionHeader listItem : Str) (changes : Rec (List Str))
    (sections : Option (Rec Str))
    (commitMeta : Option (Rec (Option Str × Option Str)))
    (repoInfo : Option RepoInfo) : Str :=
  changes.foldl
    (fun acc sec =>
      let displaySection := getSectionDisplayName sec.1 sections
      acc ++ jsReplaceFirst (("{section}").toList) displaySection sectionHeader ++
        ('\n' :: '\n' :: []) ++
        renderItems listItem sec.2 commitMeta repoInfo ++ ['\n'])
    []

/-- Default changelog templates of `formatChangelogEntry`. -/
def defaultChangelogTemplates : ChangelogTemplates where
  versionHeader := ("## [{version}] - {date}").toList
  sectionHeader := ("### {section}").toList
  listItem := ("- {item}").toList
  dateFormat := ("YYYY-MM-DD").toList

/-- Default release-notes templates of `formatReleaseNotes`. -/
def defaultNotesTemplates : NotesTemplates where
  sectionHeader := ("### {section}").toList
  listItem := ("- {item}").toList

/-- The `formatChangelogEntry` of `utils/formatting.ts` (`today` stands for
the date part of the ambient clock, see `formatDate`). -/
def formatChangelogEntry (today : Str) (version : Str) (changes : Rec (List Str))
    (markdownConfig : Option MarkdownConfig)
    (commitMeta : Option (Rec (Option Str × Option Str)))
    (repoInfo : Option RepoInfo) : Str :=
  let config := ((markdownConfig.bind (fun m => m.changelog)).getD defaultChangelogTemplates)
  let date := formatDate today config.dateFormat
  let header :=
    jsReplaceFirst (("{date}").toList) date
      (jsReplaceFirst (("{version}").toList) version config.versionHeader)
  header ++ ('\n' :: '\n' :: []) ++
    renderSections config.sectionHeader config.listItem changes
      (markdownConfig.bind (fun m => m.sections)) commitMeta repoInfo

/-- The `formatReleaseNotes` of `utils/formatting.ts`. -/
def formatReleaseNotes (changes : Rec (List Str))
    (markdownConfig : Option MarkdownConfig)
    (commitMeta : Option (Rec (Option Str × Option Str)))
    (repoInfo : Option RepoInfo) : Str :=
  let config := ((markdownConfig.bind (fun m => m.releaseNotes)).getD defaultNotesTemplates)
  renderSections config.sectionHeader config.listItem changes
    (markdownConfig.bind (fun m => m.sections)) commitMeta repoInfo

/-! Association-list lemmas for the record embedding. -/

theorem recGet_nil {α : Type} (k : Str) : recGet ([] : Rec α) k = none := rfl

theorem recGet_cons {α : Type} (p : Str × α) (rs : Rec α) (k : Str) :
    recGet (p :: rs) k = if p.1 == k then some p.2 else recGet rs k := by
  by_cases hp : p.1 == k
  · simp [recGet, List.find?, hp]
  · simp [recGet, List.find?, hp]

theorem recGet_append_right {α : Type} (r1 r2 : Rec α) (k : Str)
    (h : recGet r1 k = none) : recGet (r1 ++ r2) k = recGet r2 k := by
  induction r1 with
  | nil => simp
  | cons p rs ih =>
    rw [recGet_cons] at h
    by_cases hp : p.1 == k
    · simp [hp] at h
    · rw [List.cons_append, recGet_cons, if_neg hp]
      exact ih (by simpa [hp] using h)

theorem recGet_set_eq {α : Type} (r : Rec α) (k : Str) (v : α) :
    recGet (recSet r k v) k = some v := by
  induction r with
  | nil => simp [recSet, recGet_cons]
  | cons p rs ih =>
    by_cases hp : p.1 == k
    · simp [recSet, hp, recGet_cons]
    · simp [recSet, hp, recGet_cons, ih]

theorem recGet_set_ne {α : Type} (r : Rec α) (k k2 : Str) (v : α) (h : ¬ k2 = k) :
    recGet (recSet r k v) k2 = recGet r k2 := by
  induction r with
  | nil =>
    have : ¬ (k == k2) := by simp; exact fun hh => h hh.symm
    simp [recSet, recGet_cons, this]
  | cons p rs ih =>
    by_cases hp : p.1 == k
    · have hpk : p.1 = k := by simpa using hp
      have hpk2 : ¬ (p.1 == k2) := by simp [hpk]; exact fun hh => h hh.symm
      simp [recSet, hp, recGet_cons, hpk2]
    · by_cases hq : p.1 == k2
      · simp [recSet, hp, recGet_cons, hq]
      · simp [recSet, hp, recGet_cons, hq, ih]

theorem recGet_push_eq (r : Rec (List Str)) (k : Str) (v : Str) :
    recGet (recPush r k v) k = some ((recGet r k).getD [] ++ [v]) := by
  unfold recPush
  cases hg : recGet r k with
  | some l => simpa [hg] using recGet_set_eq r k (l ++ [v])
  | none =>
    rw [recGet_append_right _ _ _ hg]
    simp [recGet_cons]

theorem recGet_push_ne (r : Rec (List Str)) (k k2 v : Str) (h : ¬ k2 = k) :
    recGet (recPush r k v) k2 = recGet r k2 := by
  unfold recPush
  cases hg : recGet r k with
  | some l => exact recGet_set_ne r k k2 (l ++ [v]) h
  | none =>
    have hkk2 : ¬ (k == k2) = true := by simp; exact fun hh => h hh.symm
    induction r with
    | nil => simp [recGet_cons, hkk2]
    | cons p rs ih =>
      rw [recGet_cons] at hg
      by_cases hp : p.1 == k
      · simp [hp] at hg
      · rw [List.cons_append, recGet_cons, recGet_cons]
        by_cases hq : p.1 == k2
        · simp [hq]
        · rw [if_neg hq, if_neg hq]
          exact ih (by simpa [hp] using hg)

/-! Claim C1. -/

/-- C1: the claim says `bumpVersion` on a version already carrying a
`-<tag>.N` suffix for the same tag increments `N`; the code instead throws
`Invalid version format` on every such input, because `split(".")` cuts a
`-<tag>.N` suffix into a fourth, non-numeric part. Both spec examples
(`"1.2.3-beta.0"` and its claimed successor `"1.2.3-beta.1"`) are rejected,
even though the function's own prerelease-increment branch was written for
exactly these inputs. -/
theorem c1_prerelease_increment_throws :
    bumpVersionE (("1.2.3-beta.0").toList) .minor (some (("beta").toList)) =
      .error (("Invalid version format: 1.2.3-beta.0").toList) ∧
    bumpVersionE (("1.2.3-beta.1").toList) .minor (some (("beta").toList)) =
      .error (("Invalid version format: 1.2.3-beta.1").toList) :=
  ⟨rfl, rfl⟩

/-! Claim C3. -/

/-- C3: the claim (and the README) says a `!` before the colon always sets
`breaking = true` and forces a `major` bump; the current
`utils/commit-parser.ts` regex has no bang group, so its pipeline parses
`"feat!: remove old api"` as type `"unknown"` with `breaking = false` and
leaves the aggregate bump at `patch` — while the `release-lib.ts` variant
implements the documented behaviour on the same input. -/
theorem c3_bang_ignored_in_current_variant :
    (parseCommitB (("feat!: remove old api").toList) (some (("h1").toList))).breaking
        = false ∧
    (parseCommitB (("feat!: remove old api").toList) (some (("h1").toList))).type
        = ("unknown").toList ∧
    (analyzeCommitsB [⟨("h1").toList, ("feat!: remove old api").toList⟩]
        CONFIG CONFIG.breakingKeywords).bump = Bump.patch ∧
    (parseCommitRL (("feat!: remove old api").toList)).map (fun p => p.breaking)
        = some true ∧
    (analyzeCommitsRL [("feat!: remove old api").toList]).bump = Bump.major :=
  ⟨rfl, rfl, rfl, rfl, rfl⟩

/-! Claim C2: counterexample. -/

/-- Configuration whose single rule declares a `major` bump; claim C2
quantifies over every rule configuration. -/
def majorRuleConfig : Config where
  types := [(("x").toList, { bump := .major })]
  hiddenScopes := []
  breakingKeywords := []

/-- C2 counterexample: a non-breaking commit whose rule declares bump
`major` does not make the aggregate bump `major` — the classifier only ever
raises a non-`major` running bump on an arriving `minor`, so the aggregate
stays `patch`. -/
theorem c2_counterexample :
    recGet majorRuleConfig.types (("x").toList) =
      some { bump := Bump.major, sectionName := none, hidden := false } ∧
    (analyzeCommitsB [⟨("h1").toList, ("x: b").toList⟩] majorRuleConfig []).bump
      = Bump.patch :=
  ⟨rfl, rfl⟩

/-! Claim C5: counterexample. -/

/-- C5 counterexample (current `utils/commit-parser.ts` classifier): a
breaking commit matching the hidden `revert` rule is dropped before the
breaking-change handling, so nothing lands in "Breaking Changes"; and a
breaking commit matching the visible `feat` rule lands ONLY in "Breaking
Changes", not additionally in "Features". -/
theorem c5_counterexample :
    CONFIG.breakingKeywords.any
        (fun kw => strIncludes (("revert: drop BREAKING CHANGE api").toList) kw) = true ∧
    recGet CONFIG.types (("revert").toList) =
      some { bump := Bump.patch, sectionName := none, hidden := true } ∧
    (analyzeCommitsB [⟨("h1").toList, ("revert: drop BREAKING CHANGE api").toList⟩]
        CONFIG CONFIG.breakingKeywords).changes = [] ∧
    (analyzeCommitsB [⟨("h1").toList, ("feat: drop BREAKING CHANGE api").toList⟩]
        CONFIG CONFIG.breakingKeywords).changes =
      [((("Breaking Changes").toList), [("drop BREAKING CHANGE api").toList])] :=
  ⟨rfl, rfl, rfl, rfl⟩

/-! Claim C6: counterexample. -/

/-- C6 counterexample: the claim says `hasOnlyHiddenChanges` is false when
no commit matched any rule, in particular on the empty list; the current
`utils/commit-parser.ts` classifier returns the mere absence of visible
changes, which is `true` on the empty list. -/
theorem c6_counterexample :
    (analyzeCommitsB [] CONFIG CONFIG.breakingKeywords).hasOnlyHiddenChanges = true :=
  rfl

/-! Claim C7. -/

/-- Spec-side predicate of C7, following the spec words "decompose into
exactly three non-negative integers separated by dots": splitting on dots
yields exactly three parts, each a nonempty decimal-digit string. -/
def specThreeNonNegInts (v : Str) : Bool :=
  match splitOnChar '.' v with
  | [a, b, c] =>
    (!a.isEmpty && a.all Char.isDigit) && (!b.isEmpty && b.all Char.isDigit) &&
      (!c.isEmpty && c.all Char.isDigit)
  | _ => false

/-- C7 counterexample: `"1..3"` (empty second component) and `"1.-2.3"`
(negative second component) are not three non-negative dot-separated
integers, yet `bumpVersion` silently coerces and bumps them instead of
failing — `Number("")` is `0` and `Number("-2")` is `-2`, neither NaN. -/
theorem c7_counterexample :
    specThreeNonNegInts (("1..3").toList) = false ∧
    bumpVersionE (("1..3").toList) .patch none = .ok (("1.0.4").toList) ∧
    specThreeNonNegInts (("1.-2.3").toList) = false ∧
    bumpVersionE (("1.-2.3").toList) .patch none = .ok (("1.-2.4").toList) :=
  ⟨rfl, rfl, rfl, rfl⟩

/-- C7 (amended): `bumpVersion` fails with the invalid-version-format error
if and only if the current version does not split on dots into exactly
three parts each coercible by JS `Number` — a weaker gate than the claimed
one, since `Number` accepts empty components (as `0`) and signed
components. -/
theorem c7_error_iff (v : Str) (bp : Bump) (p : Option Str) :
    (∃ msg, bumpVersionE v bp p = Except.error msg) ↔
      ¬ ((splitOnChar '.' v).length = 3 ∧
          ∀ s ∈ splitOnChar '.' v, (jsNumber s).isSome) := by
  unfold bumpVersionE
  rcases hl : splitOnChar '.' v with _ | ⟨a, _ | ⟨b, _ | ⟨c, _ | ⟨d, t⟩⟩⟩⟩
  · simp
  · cases hja : jsNumber a <;> simp [hja]
  · cases hja : jsNumber a <;> cases hjb : jsNumber b <;> simp [hja, hjb]
  · cases hja : jsNumber a <;> cases hjb : jsNumber b <;> cases hjc : jsNumber c <;>
      simp [hja, hjb, hjc]
  · cases hja : jsNumber a <;> cases hjb : jsNumber b <;> cases hjc : jsNumber c <;>
      simp [hja, hjb, hjc]

/-! Claim C4. -/

/-- C4: a release-artifact commit (skip-ci marker or reserved release
subject shape, i.e. `isReleaseCommit`) contributes nothing to
classification: the `release-lib.ts` classifier produces the same result
with and without it, and in the current pipeline the pre-analysis filter of
`analyzeCommitsForRelease` removes it, so the hash-aware classifier sees
identical input with and without it. -/
theorem c4_release_commits_contribute_nothing
    (l1 l2 : List Str) (c : Str) (h : isReleaseCommit c = true)
    (cfg : Config) (kws : List Str) (l1b l2b : List CommitInfo) (cb : CommitInfo)
    (hb : isReleaseCommit cb.message = true) :
    analyzeCommitsRL (l1 ++ c :: l2) = analyzeCommitsRL (l1 ++ l2) ∧
    analyzeCommitsB ((l1b ++ cb :: l2b).filter (fun x => !isReleaseCommit x.message))
        cfg kws =
      analyzeCommitsB ((l1b ++ l2b).filter (fun x => !isReleaseCommit x.message))
        cfg kws := by
  constructor
  · unfold analyzeCommitsRL
    rw [List.foldl_append, List.foldl_append, List.foldl_cons]
    have hskip : rlStep (List.foldl rlStep ⟨none, [], false⟩ l1) c =
        List.foldl rlStep ⟨none, [], false⟩ l1 := by
      unfold rlStep
      rw [h]
      rfl
    rw [hskip]
  · have hfil : (l1b ++ cb :: l2b).filter (fun x => !isReleaseCommit x.message) =
        (l1b ++ l2b).filter (fun x => !isReleaseCommit x.message) := by
      simp [List.filter_append, List.filter_cons, hb]
    rw [hfil]

/-- C4 witness: a concrete release commit is skipped by both classifiers. -/
theorem c4_witness :
    isReleaseCommit (("chore(release): 1.2.3 [skip ci]").toList) = true ∧
    (analyzeCommitsRL ([("feat: x").toList] ++
        ("chore(release): 1.2.3 [skip ci]").toList :: [("fix: y").toList]) =
      analyzeCommitsRL ([("feat: x").toList] ++ [("fix: y").toList]) ∧
    analyzeCommitsB (([(⟨("a1").toList, ("feat: x").toList⟩ : CommitInfo)] ++
        (⟨("a2").toList, ("chore(release): 1.2.3 [skip ci]").toList⟩ :
          CommitInfo) :: []).filter (fun x => !isReleaseCommit x.message))
        CONFIG CONFIG.breakingKeywords =
      analyzeCommitsB (([(⟨("a1").toList, ("feat: x").toList⟩ : CommitInfo)] ++
        ([] : List CommitInfo)).filter (fun x => !isReleaseCommit x.message))
        CONFIG CONFIG.breakingKeywords) :=
  ⟨rfl,
    c4_release_commits_contribute_nothing
      [("feat: x").toList] [("fix: y").toList]
      (("chore(release): 1.2.3 [skip ci]").toList) rfl
      CONFIG CONFIG.breakingKeywords
      [(⟨("a1").toList, ("feat: x").toList⟩ : CommitInfo)] []
      ⟨("a2").toList, ("chore(release): 1.2.3 [skip ci]").toList⟩ rfl⟩

/-! Claim C8. -/

theorem splitOnChar_exists_cons (sep : Char) (s : Str) :
    ∃ p ps, splitOnChar sep s = p :: ps := by
  induction s with
  | nil => exact ⟨[], [], rfl⟩
  | cons c rest ih =>
    obtain ⟨p, ps, hp⟩ := ih
    by_cases hcs : c = sep
    · refine ⟨[], p :: ps, ?_⟩
      simp only [splitOnChar]
      rw [hp]
      simp [hcs]
    · refine ⟨c :: p, ps, ?_⟩
      simp only [splitOnChar]
      rw [hp]
      simp [hcs]

theorem splitOnChar_sep_cons (sep : Char) (t : Str) :
    splitOnChar sep (sep :: t) = [] :: splitOnChar sep t := by
  obtain ⟨p, ps, hp⟩ := splitOnChar_exists_cons sep t
  simp only [splitOnChar]
  rw [hp]
  simp

theorem splitOnChar_cons_ne (sep c : Char) (s : Str) (h : ¬ c = sep) :
    splitOnChar sep (c :: s) =
      (c :: (splitOnChar sep s).headD []) :: (splitOnChar sep s).tail := by
  obtain ⟨p, ps, hp⟩ := splitOnChar_exists_cons sep s
  simp only [splitOnChar]
  rw [hp]
  simp [h]

theorem splitOnChar_append_sep (sep : Char) (a t : Str) (ha : ∀ c ∈ a, ¬ c = sep) :
    splitOnChar sep (a ++ sep :: t) = a :: splitOnChar sep t := by
  induction a with
  | nil => simpa using splitOnChar_sep_cons sep t
  | cons c rest ih =>
    have hc : ¬ c = sep := ha c (by simp)
    have ih2 := ih (fun x hx => ha x (by simp [hx]))
    rw [List.cons_append, splitOnChar_cons_ne sep c _ hc, ih2]
    simp

theorem splitOnChar_no_sep (sep : Char) (a : Str) (ha : ∀ c ∈ a, ¬ c = sep) :
    splitOnChar sep a = [a] := by
  induction a with
  | nil => rfl
  | cons c rest ih =>
    have hc : ¬ c = sep := ha c (by simp)
    have ih2 := ih (fun x hx => ha x (by simp [hx]))
    rw [splitOnChar_cons_ne sep c _ hc, ih2]
    simp

theorem isJsWs_eq_false_of_digit (c : Char) (hd : c.isDigit = true) :
    isJsWs c = false := by
  unfold isJsWs
  by_contra hne
  rw [Bool.not_eq_false] at hne
  simp only [Bool.or_eq_true, decide_eq_true_eq] at hne
  rcases hne with ((((((((h | h) | h) | h) | h) | h) | h) | h) | h) | h <;>
    (subst h; exact absurd hd (by decide))

theorem jsTrim_eq_self (a : Str) (h : ∀ c ∈ a, isJsWs c = false) : jsTrim a = a := by
  have front : ∀ (b : Str), (∀ c ∈ b, isJsWs c = false) → b.dropWhile isJsWs = b := by
    intro b hb
    cases b with
    | nil => rfl
    | cons c rest => simp [List.dropWhile, hb c (by simp)]
  unfold jsTrim
  rw [front a h, front a.reverse (fun c hc => h c (List.mem_reverse.mp hc)), List.reverse_reverse]

theorem jsNumber_digits (a : Str) (hne : a ≠ []) (hd : a.all Char.isDigit = true) :
    jsNumber a = some ((digitsToNat a : Nat) : Int) := by
  have htrim : jsTrim a = a :=
    jsTrim_eq_self a (fun c hc =>
      isJsWs_eq_false_of_digit c (by
        have := List.all_eq_true.mp hd c hc
        simpa using this))
  rcases a with _ | ⟨c, rest⟩
  · exact absurd rfl hne
  · have hc : c.isDigit = true := by
      have := List.all_eq_true.mp hd c (by simp)
      simpa using this
    simp only [jsNumber, htrim]
    rw [if_neg (by simp : ¬ ((c :: rest : Str) = []))]
    split
    · rename_i r heq
      rw [List.cons_eq_cons] at heq
      exact absurd hc (by rw [heq.1]; decide)
    · rename_i r heq
      rw [List.cons_eq_cons] at heq
      exact absurd hc (by rw [heq.1]; decide)
    · simp [jsDigits, hd]

theorem digit_ne_dot (c : Char) (hd : c.isDigit = true) : ¬ c = '.' := by
  intro h
  rw [h] at hd
  exact absurd hd (by decide)

theorem intRepr_natCast (n : Nat) : intRepr ((n : Nat) : Int) = natRepr n := by
  unfold intRepr
  rw [if_neg (by exact Int.not_lt.mpr (Int.natCast_nonneg n))]
  simp

/-- C8: on a current version made of exactly three non-negative decimal
components and no prerelease tag, `bumpVersion` increments exactly the
bumped component and zeroes every component to its right:
`major` gives `(X+1).0.0`, `minor` gives `X.(Y+1).0`, `patch` gives
`X.Y.(Z+1)`. -/
theorem c8_plain_bump (sa sb sc : Str)
    (ha : sa ≠ [] ∧ sa.all Char.isDigit = true)
    (hb : sb ≠ [] ∧ sb.all Char.isDigit = true)
    (hc : sc ≠ [] ∧ sc.all Char.isDigit = true) :
    bumpVersionE (sa ++ '.' :: sb ++ '.' :: sc) .major none =
      .ok (natRepr (digitsToNat sa + 1) ++ ('.' :: '0' :: '.' :: '0' :: [])) ∧
    bumpVersionE (sa ++ '.' :: sb ++ '.' :: sc) .minor none =
      .ok (natRepr (digitsToNat sa) ++ '.' :: natRepr (digitsToNat sb + 1) ++
        ('.' :: '0' :: [])) ∧
    bumpVersionE (sa ++ '.' :: sb ++ '.' :: sc) .patch none =
      .ok (natRepr (digitsToNat sa) ++ '.' :: natRepr (digitsToNat sb) ++
        '.' :: natRepr (digitsToNat sc + 1)) := by
  have hdots : ∀ (s : Str), s.all Char.isDigit = true → ∀ c ∈ s, ¬ c = '.' := by
    intro s hs c hcs
    exact digit_ne_dot c (by simpa using List.all_eq_true.mp hs c hcs)
  have hkey : (sa ++ '.' :: sb ++ '.' :: sc : Str) =
      sa ++ ('.' :: (sb ++ '.' :: sc)) := by
    simp
  have hsplit : splitOnChar '.' (sa ++ '.' :: sb ++ '.' :: sc) = [sa, sb, sc] := by
    rw [hkey, splitOnChar_append_sep '.' sa _ (hdots sa ha.2),
      splitOnChar_append_sep '.' sb _ (hdots sb hb.2),
      splitOnChar_no_sep '.' sc (hdots sc hc.2)]
  have hmap : (splitOnChar '.' (sa ++ '.' :: sb ++ '.' :: sc)).map jsNumber =
      [some ((digitsToNat sa : Nat) : Int), some ((digitsToNat sb : Nat) : Int),
       some ((digitsToNat sc : Nat) : Int)] := by
    rw [hsplit]
    simp [jsNumber_digits sa ha.1 ha.2, jsNumber_digits sb hb.1 hb.2,
      jsNumber_digits sc hc.1 hc.2]
  have hok : ∀ (b : Bump), bumpVersionE (sa ++ '.' :: sb ++ '.' :: sc) b none =
      .ok (bumpCore (sa ++ '.' :: sb ++ '.' :: sc) b none
        ((digitsToNat sa : Nat) : Int) ((digitsToNat sb : Nat) : Int)
        ((digitsToNat sc : Nat) : Int)) := by
    intro b
    unfold bumpVersionE
    rw [hmap]
  have hca : ((digitsToNat sa : Nat) : Int) + 1 = ((digitsToNat sa + 1 : Nat) : Int) := by
    push_cast; ring
  have hcb : ((digitsToNat sb : Nat) : Int) + 1 = ((digitsToNat sb + 1 : Nat) : Int) := by
    push_cast; ring
  have hcc : ((digitsToNat sc : Nat) : Int) + 1 = ((digitsToNat sc + 1 : Nat) : Int) := by
    push_cast; ring
  refine ⟨?_, ?_, ?_⟩ <;>
    (rw [hok]
     simp only [bumpCore, bumpPlain, hca, hcb, hcc, intRepr_natCast])

/-- C8 witness: the spec example `1.4.9` plus `minor` gives `1.5.0`. -/
theorem c8_witness :
    ((("1").toList ≠ [] ∧ (("1").toList).all Char.isDigit = true)) ∧
    bumpVersionE (("1.4.9").toList) .minor none = .ok (("1.5.0").toList) := by
  refine ⟨⟨by decide, by decide⟩, ?_⟩
  have h := (c8_plain_bump (("1").toList) (("4").toList) (("9").toList)
    ⟨by decide, by decide⟩ ⟨by decide, by decide⟩ ⟨by decide, by decide⟩).2.1
  exact h

/-! Claim C9. -/

theorem jsReplaceFirst_item_tpl (rep : Str) :
    jsReplaceFirst (("{item}").toList) rep (("- {item}").toList) =
      '-' :: ' ' :: rep := by
  simp only [jsReplaceFirst]
  rw [if_neg (by decide), if_neg (by decide), if_pos (by decide)]
  simp

theorem jsReplaceFirst_section_tpl (rep : Str) :
    jsReplaceFirst (("{section}").toList) rep (("### {section}").toList) =
      '#' :: '#' :: '#' :: ' ' :: rep := by
  simp only [jsReplaceFirst]
  rw [if_neg (by decide), if_neg (by decide), if_neg (by decide), if_neg (by decide),
    if_pos (by decide)]
  simp

/-- C9: rendering degrades gracefully on missing link metadata. For any
change item whose `commitMeta` lookup is absent, or whose entry has neither
a truthy `prNumber` nor a truthy `hash`, or when `repoInfo` is absent,
`createLinks` returns the item unchanged, and the item line rendered by
both formatters (their shared item loop, under the default templates) is
the plain `- <item>`; the single-section release-notes output is exactly
the linkless text. The rendering functions are total, so no input throws. -/
theorem c9_missing_link_meta_degrades (item sec : Str)
    (cm : Option (Rec (Option Str × Option Str))) (repo : Option RepoInfo)
    (h : cm.bind (fun m => recGet m item) = none ∨ repo = none ∨
         (∃ hs pr, cm.bind (fun m => recGet m item) = some (hs, pr) ∧
            (∀ s, pr = some s → s = []) ∧ (∀ s, hs = some s → s = []))) :
    createLinks item (cm.bind (fun m => recGet m item)) repo = item ∧
    renderItems (("- {item}").toList) [item] cm repo =
      ('-' :: ' ' :: item) ++ ['\n'] ∧
    formatReleaseNotes [(sec, [item])] none cm repo =
      ('#' :: '#' :: '#' :: ' ' :: sec) ++ ('\n' :: '\n' :: '-' :: ' ' :: item) ++
        ('\n' :: '\n' :: []) := by
  have h1 : createLinks item (cm.bind (fun m => recGet m item)) repo = item := by
    rcases h with h | h | ⟨hs, pr, hsome, hpr, hhs⟩
    · rw [h]
      unfold createLinks
      cases repo <;> rfl
    · rw [h]
      unfold createLinks
      cases cm.bind (fun m => recGet m item) <;> rfl
    · rw [hsome]
      unfold createLinks
      cases repo with
      | none => rfl
      | some r =>
        cases pr with
        | none =>
          cases hs with
          | none => rfl
          | some s =>
            have hse : s = [] := hhs s rfl
            subst hse
            rfl
        | some s =>
          have hse : s = [] := hpr s rfl
          subst hse
          cases hs with
          | none => rfl
          | some s2 =>
            have hse2 : s2 = [] := hhs s2 rfl
            subst hse2
            rfl
  have h2 : renderItems (("- {item}").toList) [item] cm repo =
      ('-' :: ' ' :: item) ++ ['\n'] := by
    unfold renderItems
    rw [List.foldl_cons, List.foldl_nil, h1]
    dsimp only
    rw [jsReplaceFirst_item_tpl]
    simp
  refine ⟨h1, h2, ?_⟩
  unfold formatReleaseNotes
  simp only [Option.bind_none, Option.getD_none]
  show renderSections defaultNotesTemplates.sectionHeader defaultNotesTemplates.listItem
      [(sec, [item])] none cm repo = _
  unfold renderSections
  rw [List.foldl_cons, List.foldl_nil]
  show [] ++ jsReplaceFirst (("{section}").toList) (getSectionDisplayName sec none)
      (("### {section}").toList) ++ ('\n' :: '\n' :: []) ++
      renderItems (("- {item}").toList) [item] cm repo ++ ['\n'] = _
  rw [h2]
  have hdisp : getSectionDisplayName sec none = sec := rfl
  rw [hdisp, jsReplaceFirst_section_tpl]
  simp

/-- C9 witness: a concrete item with no metadata map and no repository
info renders as plain text in the release notes. -/
theorem c9_witness :
    createLinks (("Add login").toList)
        (Option.bind (none : Option (Rec (Option Str × Option Str)))
          (fun m => recGet m (("Add login").toList))) none = ("Add login").toList ∧
    formatReleaseNotes [((("Features").toList), [("Add login").toList])]
        none none none = ("### Features\n\n- Add login\n\n").toList :=
  ⟨(c9_missing_link_meta_degrades (("Add login").toList) (("Features").toList)
      none none (Or.inl rfl)).1,
   by
    have h := (c9_missing_link_meta_degrades (("Add login").toList)
      (("Features").toList) none none (Or.inl rfl)).2.2
    rw [h]
    decide⟩

/-! Claim C10. -/

/-- C10: the `commitMeta` map of the current classifier is keyed by the
rendered change-description string, and a later visible rule-matched commit
overwrites the entry of any earlier commit with the identical description —
so a batch ending with such a commit maps that description to the last
commit's `{hash, prNumber}` — and the renderer gives two list items with
the same description identical output, both linked through that single
(last-written) entry. -/
theorem c10_later_meta_wins (commits : List CommitInfo) (cfg : Config) (kws : List Str)
    (c : CommitInfo) (rule : CommitTypeConfig)
    (hrule : recGet cfg.types (parseCommitB c.message (some c.hash)).type = some rule)
    (hhid : rule.hidden = false)
    (hsc : scopeHiddenB cfg (parseCommitB c.message (some c.hash)).type
             (parseCommitB c.message (some c.hash)).scope = false) :
    recGet (analyzeCommitsB (commits ++ [c]) cfg kws).commitMeta
        (changeDescB (parseCommitB c.message (some c.hash))) =
      some ((parseCommitB c.message (some c.hash)).hash,
            (parseCommitB c.message (some c.hash)).prNumber) ∧
    ∀ (tpl : Str) (cm : Option (Rec (Option Str × Option Str)))
        (repo : Option RepoInfo) (d : Str),
      renderItems tpl [d, d] cm repo =
        renderItems tpl [d] cm repo ++ renderItems tpl [d] cm repo := by
  constructor
  · unfold analyzeCommitsB
    rw [List.foldl_append, List.foldl_cons, List.foldl_nil]
    simp only [bStep]
    rw [hrule]
    simp only [hhid, hsc, Bool.false_eq_true, if_false]
    exact recGet_set_eq _ _ _
  · intro tpl cm repo d
    simp [renderItems]

/-- C10 witness: two commits with the identical description `resolve Y`;
the later one's hash and PR number win. -/
theorem c10_witness :
    recGet CONFIG.types
        (parseCommitB (("fix: resolve Y (#43)").toList) (some (("h2").toList))).type =
      some { bump := Bump.patch, sectionName := some (("Bug Fixes").toList),
             hidden := false } ∧
    recGet (analyzeCommitsB
        [⟨("h1").toList, ("fix: resolve Y (#42)").toList⟩,
         ⟨("h2").toList, ("fix: resolve Y (#43)").toList⟩]
        CONFIG CONFIG.breakingKeywords).commitMeta (("resolve Y").toList) =
      some (some (("h2").toList), some (("43").toList)) := by
  refine ⟨rfl, ?_⟩
  have h := (c10_later_meta_wins
    [⟨("h1").toList, ("fix: resolve Y (#42)").toList⟩]
    CONFIG CONFIG.breakingKeywords
    ⟨("h2").toList, ("fix: resolve Y (#43)").toList⟩
    { bump := Bump.patch, sectionName := some (("Bug Fixes").toList), hidden := false }
    rfl rfl rfl).1
  exact h

/-! Claim C2: amended theorem. -/

/-- Maximum of two bump levels under `major > minor > patch`. -/
def bmax : Bump → Bump → Bump
  | .major, _ => .major
  | _, .major => .major
  | .minor, _ => .minor
  | _, .minor => .minor
  | .patch, .patch => .patch

/-- The keyword-based breaking test of the current classifier. -/
def isBreakingB (kws : List Str) (ci : CommitInfo) : Bool :=
  kws.any (fun kw => strIncludes ci.message kw)

/-- Does the commit match a rule declaring a `minor` bump? -/
def matchedMinorB (cfg : Config) (ci : CommitInfo) : Bool :=
  match recGet cfg.types (parseCommitB ci.message (some ci.hash)).type with
  | some r => r.bump == Bump.minor
  | none => false

/-- Severity one commit contributes to the aggregate bump (for
configurations that declare no `major` rule). -/
def sevB (cfg : Config) (kws : List Str) (ci : CommitInfo) : Bump :=
  if isBreakingB kws ci then .major
  else if matchedMinorB cfg ci then .minor
  else .patch

theorem bmax_assoc (a b c : Bump) : bmax (bmax a b) c = bmax a (bmax b c) := by
  cases a <;> cases b <;> cases c <;> rfl

theorem bmax_patch_left (b : Bump) : bmax .patch b = b := by
  cases b <;> rfl

theorem recGet_mem {α : Type} (r : Rec α) (k : Str) (v : α)
    (h : recGet r k = some v) : (k, v) ∈ r := by
  induction r with
  | nil => simp [recGet, List.find?] at h
  | cons p rs ih =>
    rw [recGet_cons] at h
    by_cases hp : p.1 == k
    · have hk : p.1 = k := by simpa using hp
      have hv : p.2 = v := by simpa [hp] using h
      have : p = (k, v) := by
        rw [← hk, ← hv]
      rw [← this]
      exact List.mem_cons_self p rs
    · exact List.mem_cons_of_mem p (ih (by simpa [hp] using h))

/-- The shared `CONFIG` declares no rule with bump `major` (majors only
arise from breaking commits). -/
theorem config_no_major (t : Str) (r : CommitTypeConfig)
    (h : recGet CONFIG.types t = some r) : r.bump ≠ .major := by
  have hm := recGet_mem _ _ _ h
  have hall : ∀ p ∈ CONFIG.types, p.2.bump ≠ Bump.major := by decide
  exact hall _ hm

theorem bump_of_branches (c1 c2 : Bool) (b : Bump)
    (ch1 ch2 ch3 : Rec (List Str)) (m1 m2 m3 : Rec (Option Str × Option Str))
    (v1 v2 v3 : Bool) :
    (if c1 = true then
       ({ bump := b, changes := ch1, commitMeta := m1, hasVisibleChanges := v1 } : BState)
     else if c2 = true then
       { bump := b, changes := ch2, commitMeta := m2, hasVisibleChanges := v2 }
     else
       { bump := b, changes := ch3, commitMeta := m3, hasVisibleChanges := v3 }).bump
      = b := by
  split
  · rfl
  · split <;> rfl

theorem bStep_bump (cfg : Config) (kws : List Str) (st : BState) (ci : CommitInfo)
    (hmaj : ∀ t r, recGet cfg.types t = some r → r.bump ≠ .major) :
    (bStep cfg kws st ci).bump = bmax st.bump (sevB cfg kws ci) := by
  unfold bStep sevB matchedMinorB isBreakingB
  cases hr : recGet cfg.types (parseCommitB ci.message (some ci.hash)).type with
  | none =>
    cases hbr : kws.any (fun kw => strIncludes ci.message kw) <;>
      cases hst : st.bump <;> simp [hr, hbr, hst, bmax]
  | some r =>
    have hnm := hmaj _ _ hr
    dsimp only
    rw [hr]
    dsimp only
    rw [bump_of_branches]
    cases hb : r.bump with
    | major => exact absurd rfl (hb ▸ hnm)
    | minor =>
      cases hbr : kws.any (fun kw => strIncludes ci.message kw) <;>
        cases hst : st.bump <;> simp [hr, hbr, hst, hb, bmax]
    | patch =>
      cases hbr : kws.any (fun kw => strIncludes ci.message kw) <;>
        cases hst : st.bump <;> simp [hr, hbr, hst, hb, bmax]

theorem foldl_bStep_bump (cfg : Config) (kws : List Str)
    (hmaj : ∀ t r, recGet cfg.types t = some r → r.bump ≠ .major)
    (l : List CommitInfo) (st : BState) :
    (l.foldl (bStep cfg kws) st).bump =
      l.foldl (fun b ci => bmax b (sevB cfg kws ci)) st.bump := by
  induction l generalizing st with
  | nil => rfl
  | cons c rest ih =>
    rw [List.foldl_cons, List.foldl_cons, ih, bStep_bump cfg kws st c hmaj]

theorem foldl_bmax_aggr (cfg : Config) (kws : List Str) (l : List CommitInfo)
    (b : Bump) :
    l.foldl (fun x ci => bmax x (sevB cfg kws ci)) b =
      bmax b (if l.any (isBreakingB kws) then .major
              else if l.any (matchedMinorB cfg) then .minor else .patch) := by
  induction l generalizing b with
  | nil => cases b <;> rfl
  | cons c rest ih =>
    rw [List.foldl_cons, ih, bmax_assoc]
    congr 1
    unfold sevB
    cases hbc : isBreakingB kws c <;> cases hbr : rest.any (isBreakingB kws) <;>
      cases hmc : matchedMinorB cfg c <;> cases hmr : rest.any (matchedMinorB cfg) <;>
        simp [List.any_cons, hbc, hbr, hmc, hmr, bmax]

theorem perm_any {α : Type} {l1 l2 : List α} (h : l1.Perm l2) (p : α → Bool) :
    l1.any p = l2.any p := by
  cases hb : l2.any p with
  | true =>
    obtain ⟨x, hx, hpx⟩ := List.any_eq_true.mp hb
    exact List.any_eq_true.mpr ⟨x, h.mem_iff.mpr hx, hpx⟩
  | false =>
    rw [List.any_eq_false] at hb ⊢
    exact fun x hx => hb x (h.mem_iff.mp hx)

/-- C2 (amended): for every configuration whose rules declare only `minor`
or `patch` bumps (as the shared `CONFIG` does — rule-declared `major` is
ignored by the classifier, see the counterexample), the aggregate bump of
the current classifier is the maximum severity over the commits: `major`
iff some commit trips the breaking-keyword test, else `minor` iff some
commit matches a minor-declaring rule, else the default `patch`; and the
aggregate bump is invariant under permutation of the commit list. -/
theorem c2_bump_is_max (cfg : Config) (kws : List Str) (commits : List CommitInfo)
    (hmaj : ∀ t r, recGet cfg.types t = some r → r.bump ≠ .major) :
    ((analyzeCommitsB commits cfg kws).bump =
      if commits.any (isBreakingB kws) then .major
      else if commits.any (matchedMinorB cfg) then .minor else .patch) ∧
    ∀ commits2, commits.Perm commits2 →
      (analyzeCommitsB commits cfg kws).bump =
        (analyzeCommitsB commits2 cfg kws).bump := by
  have hmain : ∀ (l : List CommitInfo), (analyzeCommitsB l cfg kws).bump =
      if l.any (isBreakingB kws) then Bump.major
      else if l.any (matchedMinorB cfg) then Bump.minor else Bump.patch := by
    intro l
    unfold analyzeCommitsB
    dsimp only
    rw [foldl_bStep_bump cfg kws hmaj, foldl_bmax_aggr, bmax_patch_left]
  refine ⟨hmain commits, ?_⟩
  intro c2 hperm
  rw [hmain commits, hmain c2, perm_any hperm, perm_any hperm]

/-- C2 witness: a `feat`/`fix` pair aggregates to `minor` and the value is
unchanged when the two commits are swapped. -/
theorem c2_witness :
    ((analyzeCommitsB
        [⟨("h1").toList, ("feat: x").toList⟩, ⟨("h2").toList, ("fix: y").toList⟩]
        CONFIG CONFIG.breakingKeywords).bump =
      if [(⟨("h1").toList, ("feat: x").toList⟩ : CommitInfo),
          ⟨("h2").toList, ("fix: y").toList⟩].any (isBreakingB CONFIG.breakingKeywords)
      then Bump.major
      else if [(⟨("h1").toList, ("feat: x").toList⟩ : CommitInfo),
          ⟨("h2").toList, ("fix: y").toList⟩].any (matchedMinorB CONFIG)
      then Bump.minor else Bump.patch) ∧
    (analyzeCommitsB
        [⟨("h1").toList, ("feat: x").toList⟩, ⟨("h2").toList, ("fix: y").toList⟩]
        CONFIG CONFIG.breakingKeywords).bump =
      (analyzeCommitsB
        [⟨("h2").toList, ("fix: y").toList⟩, ⟨("h1").toList, ("feat: x").toList⟩]
        CONFIG CONFIG.breakingKeywords).bump :=
  ⟨(c2_bump_is_max CONFIG CONFIG.breakingKeywords
      [⟨("h1").toList, ("feat: x").toList⟩, ⟨("h2").toList, ("fix: y").toList⟩]
      config_no_major).1,
   (c2_bump_is_max CONFIG CONFIG.breakingKeywords
      [⟨("h1").toList, ("feat: x").toList⟩, ⟨("h2").toList, ("fix: y").toList⟩]
      config_no_major).2 _
     (List.Perm.swap _ _ _)⟩

/-! Claim C5: amended theorem. -/

/-- Membership of a change description under a section key. -/
def memChange (r : Rec (List Str)) (k v : Str) : Prop :=
  ∃ l, recGet r k = some l ∧ v ∈ l

theorem memChange_push (r : Rec (List Str)) (k v k2 w : Str)
    (h : memChange r k v) : memChange (recPush r k2 w) k v := by
  obtain ⟨l, hget, hmem⟩ := h
  by_cases hk : k = k2
  · subst hk
    refine ⟨(recGet r k).getD [] ++ [w], recGet_push_eq r k w, ?_⟩
    rw [hget]
    exact List.mem_append_left _ hmem
  · exact ⟨l, by rw [recGet_push_ne r k2 k w hk]; exact hget, hmem⟩

theorem memChange_push_self (r : Rec (List Str)) (k w : Str) :
    memChange (recPush r k w) k w :=
  ⟨(recGet r k).getD [] ++ [w], recGet_push_eq r k w,
    List.mem_append_right _ (List.mem_singleton.mpr rfl)⟩

theorem rlBreaking_shape (st : RLState) (p : ParsedCommitRL) :
    (rlBreaking st p).changes = st.changes ∨
    (∃ k1 v1, (rlBreaking st p).changes = recPush st.changes k1 v1) ∨
    (∃ k1 v1 k2 v2,
      (rlBreaking st p).changes = recPush (recPush st.changes k1 v1) k2 v2) := by
  unfold rlBreaking
  by_cases hbr : p.breaking = true
  · rw [hbr]
    simp only [if_true]
    split
    · split
      · split
        · exact Or.inr (Or.inl ⟨_, _, rfl⟩)
        · exact Or.inr (Or.inr ⟨_, _, _, _, rfl⟩)
      · exact Or.inr (Or.inl ⟨_, _, rfl⟩)
    · exact Or.inr (Or.inl ⟨_, _, rfl⟩)
  · rw [Bool.not_eq_true] at hbr
    rw [hbr]
    exact Or.inl rfl

theorem rlRule_shape (st1 : RLState) (p : ParsedCommitRL) :
    (rlRule st1 p).changes = st1.changes ∨
    ∃ k v, (rlRule st1 p).changes = recPush st1.changes k v := by
  unfold rlRule
  cases hr : recGet CONFIG.types p.type with
  | none => exact Or.inl rfl
  | some config =>
    dsimp only
    split
    · exact Or.inr ⟨_, _, rfl⟩
    · exact Or.inl rfl

theorem memChange_rlBreaking (st : RLState) (p : ParsedCommitRL) (k v : Str)
    (h : memChange st.changes k v) : memChange (rlBreaking st p).changes k v := by
  rcases rlBreaking_shape st p with heq | ⟨k1, v1, heq⟩ | ⟨k1, v1, k2, v2, heq⟩ <;>
    rw [heq]
  · exact h
  · exact memChange_push _ _ _ _ _ h
  · exact memChange_push _ _ _ _ _ (memChange_push _ _ _ _ _ h)

theorem memChange_rlRule (st1 : RLState) (p : ParsedCommitRL) (k v : Str)
    (h : memChange st1.changes k v) : memChange (rlRule st1 p).changes k v := by
  rcases rlRule_shape st1 p with heq | ⟨k1, v1, heq⟩ <;> rw [heq]
  · exact h
  · exact memChange_push _ _ _ _ _ h

theorem memChange_rlStep (st : RLState) (c : Str) (k v : Str)
    (h : memChange st.changes k v) : memChange (rlStep st c).changes k v := by
  unfold rlStep
  split
  · exact h
  · split
    · exact h
    · exact memChange_rlRule _ _ _ _ (memChange_rlBreaking _ _ _ _ h)

theorem memChange_foldl (l : List Str) (st : RLState) (k v : Str)
    (h : memChange st.changes k v) : memChange ((l.foldl rlStep st)).changes k v := by
  induction l generalizing st with
  | nil => exact h
  | cons c rest ih => exact ih _ (memChange_rlStep st c k v h)

theorem rlBreaking_mem (st : RLState) (p : ParsedCommitRL) (hbr : p.breaking = true) :
    memChange (rlBreaking st p).changes (("Breaking Changes").toList) p.description := by
  unfold rlBreaking
  rw [hbr]
  simp only [if_true]
  split
  · split
    · split
      · exact memChange_push_self _ _ _
      · exact memChange_push _ _ _ _ _ (memChange_push_self _ _ _)
    · exact memChange_push_self _ _ _
  · exact memChange_push_self _ _ _

theorem rlStep_breaking_mem (st : RLState) (c : Str) (parsed : ParsedCommitRL)
    (hrel : isReleaseCommit c = false) (hp : parseCommitRL c = some parsed)
    (hbr : parsed.breaking = true) :
    memChange (rlStep st c).changes (("Breaking Changes").toList) parsed.description := by
  unfold rlStep
  rw [hrel]
  simp only [Bool.false_eq_true, if_false]
  rw [hp]
  exact memChange_rlRule _ _ _ _ (rlBreaking_mem st parsed hbr)

theorem rlRule_visible_mem (st1 : RLState) (parsed : ParsedCommitRL)
    (rule : CommitTypeConfig) (sec : Str)
    (hrule : recGet CONFIG.types parsed.type = some rule)
    (hhid : rule.hidden = false)
    (hsc : scopeHiddenRL parsed.type parsed.scope = false)
    (hsec : rule.sectionName = some sec) (hsecne : sec.isEmpty = false) :
    memChange (rlRule st1 parsed).changes sec parsed.description := by
  unfold rlRule
  rw [hrule]
  dsimp only
  have hvis : (if (rule.hidden || scopeHiddenRL parsed.type parsed.scope) = true then
      (none : Option Str)
      else match rule.sectionName with
           | some s => if s.isEmpty = true then none else some s
           | none => none) = some sec := by
    rw [hhid, hsc, hsec]
    simp [hsecne]
  rw [hvis]
  exact memChange_push_self _ _ _

theorem rlStep_visible_mem (st : RLState) (c : Str) (parsed : ParsedCommitRL)
    (rule : CommitTypeConfig) (sec : Str)
    (hrel : isReleaseCommit c = false) (hp : parseCommitRL c = some parsed)
    (hrule : recGet CONFIG.types parsed.type = some rule)
    (hhid : rule.hidden = false)
    (hsc : scopeHiddenRL parsed.type parsed.scope = false)
    (hsec : rule.sectionName = some sec) (hsecne : sec.isEmpty = false) :
    memChange (rlStep st c).changes sec parsed.description := by
  unfold rlStep
  rw [hrel]
  simp only [Bool.false_eq_true, if_false]
  rw [hp]
  exact rlRule_visible_mem _ parsed rule sec hrule hhid hsc hsec hsecne

/-- C5 (amended; the `release-lib.ts` classifier — the current
`utils/commit-parser.ts` variant drops hidden breaking commits entirely and
never lists a commit in two sections, see the counterexample): every
non-release commit parsing with `breaking = true` lands its description in
the reserved "Breaking Changes" section regardless of any rule's `hidden`
flag, and when its type additionally matches a rule that is not hidden, not
scope-suppressed and carries a section, the description also lands in that
normal section — the commit then appears in both sections. -/
theorem c5_breaking_lands_in_reserved_section (l1 l2 : List Str) (c : Str)
    (parsed : ParsedCommitRL) (hrel : isReleaseCommit c = false)
    (hp : parseCommitRL c = some parsed) (hbr : parsed.breaking = true) :
    (∃ items, recGet (analyzeCommitsRL (l1 ++ c :: l2)).changes
        (("Breaking Changes").toList) = some items ∧ parsed.description ∈ items) ∧
    (∀ rule sec, recGet CONFIG.types parsed.type = some rule →
      rule.hidden = false → scopeHiddenRL parsed.type parsed.scope = false →
      rule.sectionName = some sec → sec.isEmpty = false →
      ∃ items, recGet (analyzeCommitsRL (l1 ++ c :: l2)).changes sec = some items ∧
        parsed.description ∈ items) := by
  have hchanges : (analyzeCommitsRL (l1 ++ c :: l2)).changes =
      ((l2.foldl rlStep (rlStep (l1.foldl rlStep ⟨none, [], false⟩) c))).changes := by
    unfold analyzeCommitsRL
    rw [List.foldl_append, List.foldl_cons]
  constructor
  · rw [hchanges]
    exact memChange_foldl l2 _ _ _
      (rlStep_breaking_mem (l1.foldl rlStep ⟨none, [], false⟩) c parsed hrel hp hbr)
  · intro rule sec hrule hhid hsc hsec hsecne
    rw [hchanges]
    exact memChange_foldl l2 _ _ _
      (rlStep_visible_mem (l1.foldl rlStep ⟨none, [], false⟩) c parsed rule sec
        hrel hp hrule hhid hsc hsec hsecne)

/-- C5 witness: `feat!: drop Z` appears in both "Breaking Changes" and
"Features". -/
theorem c5_witness :
    (∃ items, recGet (analyzeCommitsRL ([] ++ ("feat!: drop Z").toList :: [])).changes
        (("Breaking Changes").toList) = some items ∧ ("drop Z").toList ∈ items) ∧
    (∃ items, recGet (analyzeCommitsRL ([] ++ ("feat!: drop Z").toList :: [])).changes
        (("Features").toList) = some items ∧ ("drop Z").toList ∈ items) := by
  have h := c5_breaking_lands_in_reserved_section [] [] (("feat!: drop Z").toList)
    ⟨("feat").toList, none, ("drop Z").toList, true, []⟩ rfl rfl rfl
  exact ⟨h.1,
    h.2 { bump := Bump.minor, sectionName := some (("Features").toList), hidden := false }
      (("Features").toList) rfl rfl rfl rfl rfl⟩

/-! Claim C6: amended theorem. -/

/-- Is a parsed commit rule-matched but suppressed (hidden rule, or scope
listed in a hidden-scope rule for its type)? -/
def ruleSuppressed (p : ParsedCommitRL) : Bool :=
  match recGet CONFIG.types p.type with
  | some rule => rule.hidden || scopeHiddenRL p.type p.scope
  | none => false

/-- Does a commit string count as a suppressed change for the
`release-lib.ts` classifier: not a release commit, parseable, rule-matched
and hidden by rule or by scope? -/
def suppressedRL (c : Str) : Bool :=
  !(isReleaseCommit c) &&
    (match parseCommitRL c with
     | some p => ruleSuppressed p
     | none => false)

/-- Every non-hidden rule of the shared `CONFIG` carries a nonempty
section, so the classifier's hidden-change branch fires exactly for
suppressed commits. -/
theorem config_sections (t : Str) (r : CommitTypeConfig)
    (h : recGet CONFIG.types t = some r) (hh : r.hidden = false) :
    ∃ sec, r.sectionName = some sec ∧ sec.isEmpty = false := by
  have hm := recGet_mem _ _ _ h
  have hall : ∀ p ∈ CONFIG.types, p.2.hidden = false →
      (match p.2.sectionName with
       | some s => !s.isEmpty
       | none => false) = true := by decide
  have hme := hall _ hm hh
  cases hs : r.sectionName with
  | none => rw [hs] at hme; simp at hme
  | some sec =>
    rw [hs] at hme
    exact ⟨sec, rfl, by simpa using hme⟩

theorem rlBreaking_flag (st : RLState) (p : ParsedCommitRL) :
    (rlBreaking st p).hasHiddenChanges = st.hasHiddenChanges := by
  unfold rlBreaking
  by_cases hbr : p.breaking = true
  · rw [hbr]
    rfl
  · rw [Bool.not_eq_true] at hbr
    rw [hbr]
    rfl

theorem rlRule_flag (st1 : RLState) (p : ParsedCommitRL) :
    (rlRule st1 p).hasHiddenChanges = (st1.hasHiddenChanges || ruleSuppressed p) := by
  unfold rlRule ruleSuppressed
  cases hr : recGet CONFIG.types p.type with
  | none => simp
  | some rule =>
    dsimp only
    by_cases hh : rule.hidden = true
    · rw [hh]
      simp
    · rw [Bool.not_eq_true] at hh
      rw [hh]
      by_cases hsc : scopeHiddenRL p.type p.scope = true
      · rw [hsc]
        simp
      · rw [Bool.not_eq_true] at hsc
        rw [hsc]
        obtain ⟨sec, hsec, hsecne⟩ := config_sections p.type rule hr hh
        rw [hsec]
        simp [hsecne]

theorem rlStep_flag (st : RLState) (c : Str) :
    (rlStep st c).hasHiddenChanges = (st.hasHiddenChanges || suppressedRL c) := by
  unfold rlStep suppressedRL
  by_cases hrel : isReleaseCommit c = true
  · rw [hrel]
    simp
  · rw [Bool.not_eq_true] at hrel
    rw [hrel]
    simp only [Bool.false_eq_true, if_false, Bool.not_false, Bool.true_and]
    cases hp : parseCommitRL c with
    | none => simp
    | some p =>
      rw [rlRule_flag, rlBreaking_flag]

theorem foldl_rlStep_flag (l : List Str) (st : RLState) :
    (l.foldl rlStep st).hasHiddenChanges =
      (st.hasHiddenChanges || l.any suppressedRL) := by
  induction l generalizing st with
  | nil => simp
  | cons c rest ih =>
    rw [List.foldl_cons, ih, rlStep_flag]
    simp [List.any_cons, Bool.or_assoc]

/-- C6 (amended; the `release-lib.ts` classifier — the current
`utils/commit-parser.ts` variant returns `hasOnlyHiddenChanges` as the mere
absence of visible changes, which is `true` on the empty list, see the
counterexample): `hasOnlyHiddenChanges` is true iff the changes mapping is
empty and at least one commit was rule-matched but suppressed (its rule
hidden, or its scope listed in a hidden-scope rule for its type); in
particular it is false for any list in which no commit matched a rule, such
as the empty list. -/
theorem c6_flag_iff (commits : List Str) :
    (analyzeCommitsRL commits).hasOnlyHiddenChanges = true ↔
      ((analyzeCommitsRL commits).changes = [] ∧
        ∃ c ∈ commits, suppressedRL c = true) := by
  unfold analyzeCommitsRL
  dsimp only
  rw [Bool.and_eq_true, foldl_rlStep_flag]
  simp [List.any_eq_true, List.isEmpty_iff]

end Release
